import Mathlib

/-!
Verification of the Rust_DB engine (`testing/src/commands/db.rs` and friends)
against its natural-language specification.

Modelling conventions:
* Rust `HashMap` values are modelled as association lists in insertion order;
  `HashMap::insert` replaces the value in place, keeping the key's position.
  Rust's arbitrary hash-iteration order is modelled as insertion order.
* Rust `usize` wrapping arithmetic is modelled as `Nat` with explicit `% 2^64`.
* Files are modelled at record granularity: a CSV file is a `List (List String)`
  of records (the `csv` crate's quoting round-trips record fields and is not
  re-modelled), the working log file is a `List String` of lines.
* Fallible operations return `Except DatabaseError _`; operations that mutate
  `self` even on the error path return the updated `Database` alongside.
-/

namespace RustDB

/-- Model of Rust `HashMap::insert`: replace in place if the key is present,
otherwise append (iteration order = insertion order). -/
def alInsert (k : String) (v : β) : List (String × β) → List (String × β)
  | [] => [(k, v)]
  | (k', v') :: rest => if k = k' then (k, v) :: rest else (k', v') :: alInsert k v rest

/-- A row: mapping from column name to string value (`HashMap<String, String>`). -/
abbrev Row := List (String × String)

/-- Model of Rust `str::split(c)`: splits at every occurrence, keeping empty pieces. -/
def splitCharAux (c : Char) : List Char → List Char → List String
  | [], acc => [String.mk acc.reverse]
  | x :: xs, acc =>
      if x = c then String.mk acc.reverse :: splitCharAux c xs []
      else splitCharAux c xs (x :: acc)

def splitChar (c : Char) (s : String) : List String := splitCharAux c s.data []

/-- Model of Rust `str::split_whitespace`: splits at whitespace runs, no empty pieces. -/
def splitWsAux : List Char → List Char → List String
  | [], [] => []
  | [], acc => [String.mk acc.reverse]
  | x :: xs, acc =>
      if x.isWhitespace then
        (if acc.isEmpty then splitWsAux xs [] else String.mk acc.reverse :: splitWsAux xs [])
      else splitWsAux xs (x :: acc)

def splitWhitespace (s : String) : List String := splitWsAux s.data []

/-! ### Model of the `serde_json` (de)serialization used by the engine

The engine serializes `HashMap<String, String>` values and `String` values with
`serde_json::to_string` and reads them back with `serde_json::from_str`.  We
model exactly the compact forms `to_string` emits (string escapes for `"`,
`\`, and the control characters the engine can produce) and a parser for those
compact forms; `from_str` on anything else is modelled as failure, matching
serde's rejection of malformed input. -/

def jsonEscChar (c : Char) : List Char :=
  if c = '"' then ['\\', '"']
  else if c = '\\' then ['\\', '\\']
  else if c = '\n' then ['\\', 'n']
  else if c = '\t' then ['\\', 't']
  else if c = '\r' then ['\\', 'r']
  else [c]

def jsonEncodeStr (s : String) : String :=
  String.mk ('"' :: (s.data.map jsonEscChar).flatten ++ ['"'])

/-- Model of `serde_json::to_string` of a `HashMap<String,String>` (compact object form,
keys in map-iteration order, which the model takes as insertion order). -/
def jsonEncodeObj (m : Row) : String :=
  String.mk ('\x7b' :: (String.intercalate ","
    (m.map (fun p => jsonEncodeStr p.1 ++ ":" ++ jsonEncodeStr p.2))).data ++ ['\x7d'])

def jsonUnescChar (c : Char) : Option Char :=
  if c = '"' then some '"'
  else if c = '\\' then some '\\'
  else if c = 'n' then some '\n'
  else if c = 't' then some '\t'
  else if c = 'r' then some '\r'
  else none

/-- Parse the body of a JSON string literal (after the opening quote), returning
the decoded characters and the rest of the input after the closing quote. -/
def parseStrBody : List Char → Option (List Char × List Char)
  | [] => none
  | '"' :: rest => some ([], rest)
  | '\\' :: [] => none
  | '\\' :: e :: rest =>
      match jsonUnescChar e with
      | none => none
      | some d => (parseStrBody rest).map fun p => (d :: p.1, p.2)
  | c :: rest => (parseStrBody rest).map fun p => (c :: p.1, p.2)

/-- Parse a nonempty comma-separated sequence of `"key":"value"` entries
followed by a closing brace.  Fuel-driven; callers pass the input length. -/
def parseObjEntries : Nat → List Char → Option (Row × List Char)
  | 0, _ => none
  | fuel + 1, l =>
      match l with
      | '"' :: rest =>
          match parseStrBody rest with
          | none => none
          | some (k, rest1) =>
              match rest1 with
              | ':' :: '"' :: rest2 =>
                  match parseStrBody rest2 with
                  | none => none
                  | some (v, rest3) =>
                      match rest3 with
                      | ',' :: rest4 =>
                          (parseObjEntries fuel rest4).map
                            fun p => ((String.mk k, String.mk v) :: p.1, p.2)
                      | '\x7d' :: rest4 => some ([(String.mk k, String.mk v)], rest4)
                      | _ => none
              | _ => none
      | _ => none

/-- Model of `serde_json::from_str::<HashMap<String, String>>` on the compact
object forms the engine emits; anything else fails. -/
def parseJsonObj (s : String) : Option Row :=
  match s.data with
  | '\x7b' :: '\x7d' :: rest => if rest.isEmpty then some [] else none
  | '\x7b' :: rest =>
      match parseObjEntries s.data.length rest with
      | some (entries, []) => some entries
      | _ => none
  | _ => none

/-- Model of `serde_json::from_str::<String>` on compact string-literal forms. -/
def parseJsonStr (s : String) : Option String :=
  match s.data with
  | '"' :: rest =>
      match parseStrBody rest with
      | some (v, []) => some (String.mk v)
      | _ => none
  | _ => none

/-! ### String order, sorting, case folding

Rust compares `&str` byte-wise; UTF-8 byte order coincides with code-point
order, which the following char-list lexicographic comparison implements. -/

def lexLt : List Char → List Char → Bool
  | [], [] => false
  | [], _ :: _ => true
  | _ :: _, [] => false
  | a :: as, b :: bs =>
      if a.toNat < b.toNat then true
      else if b.toNat < a.toNat then false
      else lexLt as bs

/-- Model of Rust `&str` `<`. -/
def strLt (a b : String) : Bool := lexLt a.data b.data

/-- Model of Rust `&str` `<=` (total order: `a <= b` iff `¬ b < a`). -/
def strLe (a b : String) : Bool := !(strLt b a)

/-- Stable insertion of `x` into a `le`-sorted list, before any equal element.
Together with `sortByB` this models Rust's stable `sort`/`sort_by_key`. -/
def insertSorted (le : α → α → Bool) (x : α) : List α → List α
  | [] => [x]
  | y :: ys => if le x y then x :: y :: ys else y :: insertSorted le x ys

def sortByB (le : α → α → Bool) : List α → List α
  | [] => []
  | x :: xs => insertSorted le x (sortByB le xs)

/-- Model of `Vec::sort()` on strings. -/
def sortStrings (l : List String) : List String := sortByB strLe l

/-- Model of Rust `str::to_lowercase` (ASCII case folding suffices for the
`true`/`false` comparisons the engine performs). -/
def strToLower (s : String) : String := String.mk (s.data.map Char.toLower)

/-- Model of Rust `str::trim`: strip leading and trailing whitespace. -/
def strTrim (s : String) : String :=
  String.mk (((s.data.dropWhile Char.isWhitespace).reverse.dropWhile
    Char.isWhitespace).reverse)

/-! ### Models of Rust numeric parsing

`str::parse::<i64>` and `str::parse::<f64>`.  The f64 grammar (optional sign;
`inf`/`infinity`/`nan` case-insensitively; otherwise decimal digits with an
optional point and an optional exponent, at least one mantissa digit) is
modelled exactly; the finite values are kept as exact rationals, abstracting
binary64 rounding and overflow-to-infinity of the Rust parse. -/

def digitsToNat (l : List Char) : Nat := l.foldl (fun n c => n * 10 + (c.toNat - 48)) 0

def allDigits (l : List Char) : Bool := l.all Char.isDigit

/-- Model of `str::parse::<i64>`: optional sign, nonempty digits, 64-bit range. -/
def parseI64 (s : String) : Option Int :=
  match s.data with
  | [] => none
  | c :: rest =>
      let p : Bool × List Char :=
        if c = '-' then (true, rest)
        else if c = '+' then (false, rest) else (false, c :: rest)
      if p.2.isEmpty then none
      else if allDigits p.2 then
        let v : Int := if p.1 then -(digitsToNat p.2 : Int) else (digitsToNat p.2 : Int)
        if -(2 ^ 63) ≤ v ∧ v ≤ 2 ^ 63 - 1 then some v else none
      else none

/-- IEEE-754 value as seen by the engine's comparisons: NaN, signed infinity,
or a finite value (modelled as an exact rational). -/
inductive FVal
  | nan : FVal
  | inf (neg : Bool) : FVal
  | fin (q : ℚ) : FVal
deriving DecidableEq

/-- IEEE `<` on parsed values (NaN compares false with everything). -/
def FVal.lt : FVal → FVal → Bool
  | .nan, _ => false
  | _, .nan => false
  | .inf true, .inf true => false
  | .inf true, _ => true
  | _, .inf true => false
  | .inf false, _ => false
  | .fin _, .inf false => true
  | .fin a, .fin b => decide (a < b)

/-- IEEE `<=` on parsed values. -/
def FVal.le : FVal → FVal → Bool
  | .nan, _ => false
  | _, .nan => false
  | .inf true, _ => true
  | _, .inf true => false
  | _, .inf false => true
  | .inf false, _ => false
  | .fin a, .fin b => decide (a ≤ b)

/-- Split a char list at the first `e`/`E`, if any. -/
def splitAtExp : List Char → List Char × Option (List Char)
  | [] => ([], none)
  | c :: rest =>
      if c = 'e' ∨ c = 'E' then ([], some rest)
      else
        let p := splitAtExp rest
        (c :: p.1, p.2)

/-- Split a char list at the first `.`, if any. -/
def splitAtDot : List Char → List Char × Option (List Char)
  | [] => ([], none)
  | c :: rest =>
      if c = '.' then ([], some rest)
      else
        let p := splitAtDot rest
        (c :: p.1, p.2)

def parseExp : List Char → Option Int
  | [] => none
  | c :: rest =>
      let p : Bool × List Char :=
        if c = '-' then (true, rest)
        else if c = '+' then (false, rest) else (false, c :: rest)
      if p.2.isEmpty then none
      else if allDigits p.2 then
        some (if p.1 then -(digitsToNat p.2 : Int) else (digitsToNat p.2 : Int))
      else none

/-- Parse the unsigned part of a decimal float (mantissa and optional
exponent) into an exact rational, built from integer numerator/denominator so
that it evaluates by kernel reduction. -/
def parseDecimal (body : List Char) : Option ℚ :=
  let pe := splitAtExp body
  let pd := splitAtDot pe.1
  let intPart := pd.1
  let fracPart := (pd.2).getD []
  if !(allDigits intPart) ∨ !(allDigits fracPart) then none
  else if intPart.isEmpty ∧ fracPart.isEmpty then none
  else
    let num : Nat := digitsToNat (intPart ++ fracPart)
    let den : Nat := 10 ^ fracPart.length
    match pe.2 with
    | none => some (mkRat num den)
    | some expChars =>
        match parseExp expChars with
        | none => none
        | some e =>
            if 0 ≤ e then some (mkRat (num * 10 ^ e.toNat) den)
            else some (mkRat num (den * 10 ^ (-e).toNat))

/-- Model of `str::parse::<f64>` (finite values exact, rounding abstracted). -/
def parseF64 (s : String) : Option FVal :=
  match s.data with
  | [] => none
  | l =>
      let p : Bool × List Char :=
        match l with
        | '-' :: rest => (true, rest)
        | '+' :: rest => (false, rest)
        | _ => (false, l)
      let lower := p.2.map Char.toLower
      if lower = ['i', 'n', 'f'] ∨ lower = ['i', 'n', 'f', 'i', 'n', 'i', 't', 'y'] then
        some (.inf p.1)
      else if lower = ['n', 'a', 'n'] then some .nan
      else
        match parseDecimal p.2 with
        | none => none
        | some q => some (.fin (if p.1 then mkRat (-q.num) q.den else q))

/-! ### The table store -/

/-- Modelled from the spec: the `Table` type (`crate::table::table::Table`,
declared in `testing/src/main.rs` as `pub mod table`) is not present under
`src/`; this structure follows §3 of the spec: columns are an ordered sequence
of column names, rows map row-id to row, and a column-type mapping
(`row_datatypes`, the field name used by `db.rs` at `table.row_datatypes`)
maps column names to type tags. -/
structure Table where
  columns : List String
  rows : List (String × Row)
  row_datatypes : List (String × String)
deriving DecidableEq

/-- Modelled from the spec: `Table::new` creates an empty table. -/
def Table.new : Table := ⟨[], [], []⟩

/-- Modelled from the spec (§4.1): add column `C`; if `C` is already present,
no-op; otherwise append to `columns`.  Existing rows are not back-filled. -/
def Table.add_column (t : Table) (c : String) : Table :=
  if c ∈ t.columns then t else { t with columns := t.columns ++ [c] }

/-- Modelled from the spec: `Table::insert_row` installs the row under its id.
Per §9 ("the source lacks it for `insert_row` during replay"), the source has
no id-presence guard: the insert is an unconditional `HashMap::insert`,
overwriting any row already stored under the id. -/
def Table.insert_row (t : Table) (id : String) (data : Row) : Table :=
  { t with rows := alInsert id data t.rows }

/-- Modelled from the spec (§4.1): `get_row` returns the row map or nothing;
the reserved `datatypes` row may not be read back through `get_row`. -/
def Table.get_row (t : Table) (id : String) : Option Row :=
  if id = "datatypes" then none else t.rows.lookup id

/-- Modelled from the spec (§4.1): declare column type `C → τ`; updates the
column-type mapping and also writes `τ` into the reserved `datatypes` row at
column `C`. -/
def Table.add_datatype (t : Table) (c dt : String) : Table :=
  { t with
      row_datatypes := alInsert c dt t.row_datatypes,
      rows := alInsert "datatypes"
        (alInsert c dt ((t.rows.lookup "datatypes").getD [])) t.rows }

/-! ### Indexer (`commands/Indexer.rs`) -/

structure Indexer where
  index : List (String × List String)
deriving DecidableEq

def Indexer.new : Indexer := ⟨[]⟩

/-- Rust `Indexer::add`: `self.index.entry(key).or_insert(Vec::new()).push(row_id)`. -/
def Indexer.add (ix : Indexer) (key row_id : String) : Indexer :=
  ⟨alInsert key (((ix.index.lookup key).getD []) ++ [row_id]) ix.index⟩

def Indexer.get (ix : Indexer) (key : String) : Option (List String) :=
  ix.index.lookup key

/-! ### Bloom filter (`commands/BloomFilter.rs`)

Rust `usize` is modelled as `Nat` reduced `% 2^64` at each wrapping step;
`item.bytes()` is the UTF-8 byte sequence of the string. -/

def U64 : Nat := 2 ^ 64

/-- UTF-8 encoding of one character (value of each byte as a `Nat`). -/
def utf8Bytes (c : Char) : List Nat :=
  let n := c.toNat
  if n < 0x80 then [n]
  else if n < 0x800 then [0xC0 + n / 64, 0x80 + n % 64]
  else if n < 0x10000 then [0xE0 + n / 4096, 0x80 + (n / 64) % 64, 0x80 + n % 64]
  else [0xF0 + n / 262144, 0x80 + (n / 4096) % 64, 0x80 + (n / 64) % 64, 0x80 + n % 64]

def strBytes (s : String) : List Nat := (s.data.map utf8Bytes).flatten

structure BloomFilter where
  bit_array : List Bool
  size : Nat
deriving DecidableEq

def BloomFilter.new (size : Nat) : BloomFilter :=
  ⟨List.replicate size false, size⟩

/-- DJB2 variant: `hash = ((hash << 5) + hash) + byte`, start 5381 (wrapping). -/
def BloomFilter.hash1 (item : String) : Nat :=
  (strBytes item).foldl (fun h b => (h * 32 + h + b) % U64) 5381

/-- The 31-multiplicative accumulator: `hash = hash * 31 + byte` (wrapping), start 0. -/
def BloomFilter.hash2 (item : String) : Nat :=
  (strBytes item).foldl (fun h b => (h * 31 + b) % U64) 0

/-- Rust `BloomFilter::add` sets the bits at `hash1 % size` and `hash2 % size`.
(Rust indexing panics out of bounds and `% 0` panics; `List.set` is a no-op
out of bounds and Lean `% 0` is the identity — the in-bounds theorem below
shows the divergent cases are unreachable for `size > 0`.) -/
def BloomFilter.add (bf : BloomFilter) (item : String) : BloomFilter :=
  let h1 := BloomFilter.hash1 item % bf.size
  let h2 := BloomFilter.hash2 item % bf.size
  { bf with bit_array := (bf.bit_array.set h1 true).set h2 true }

/-- Rust `BloomFilter::contains` reads the bits at `hash1 % size` and `hash2 % size`. -/
def BloomFilter.contains (bf : BloomFilter) (item : String) : Bool :=
  let h1 := BloomFilter.hash1 item % bf.size
  let h2 := BloomFilter.hash2 item % bf.size
  bf.bit_array.getD h1 false && bf.bit_array.getD h2 false

/-! ### The database facade (`commands/db.rs`) -/

inductive DatabaseError
  | TableAlreadyExists (t : String)
  | TableDoesNotExist (t : String)
  | RowDoesNotExist (r t : String)
  | RowNotFound (r t : String)
  | FileCreationError (f m : String)
  | DataTypeError
  | InvalidDataType
deriving DecidableEq

/-- The `Database` struct.  `wal_writer` models the async writer's queue when
one is attached (`Option<walwriter::WalWriter>`); file handles are not state
here — file contents appear as explicit inputs/outputs of the operations. -/
structure Database where
  tables : List (String × Table)
  operations_since_save : Nat
  save_threshold : Nat
  wal : List String
  wal_file : String
  datatypes : List String
  saved_row_count : Nat
  wal_writer : Option (List String)
  indexer : Option Indexer
  bloom_filter : Option BloomFilter
deriving DecidableEq

def Database.new : Database :=
  { tables := []
    operations_since_save := 0
    save_threshold := 5
    wal := []
    wal_file := "wal.log"
    datatypes := ["int", "float", "string", "bool"]
    saved_row_count := 0
    wal_writer := none
    indexer := none
    bloom_filter := none }

def Database.check_table (db : Database) (table_name : String) : Bool :=
  (db.tables.lookup table_name).isSome

/-- The logging step shared by the mutation paths: `if let Some(ref writer) =
self.wal_writer { writer.log(op) } else { self.wal.push(op) }`. -/
def Database.logOp (db : Database) (op : String) : Database :=
  match db.wal_writer with
  | some q => { db with wal_writer := some (q ++ [op]) }
  | none => { db with wal := db.wal ++ [op] }

/-- Rust `Database::create_table` (logs straight to `self.wal`, not the writer). -/
def Database.create_table (db : Database) (table_name : String) :
    Database × Except DatabaseError String :=
  if db.check_table table_name then
    (db, .error (.TableAlreadyExists table_name))
  else
    let db := { db with tables := alInsert table_name Table.new db.tables }
    let op := "create_table:" ++ table_name
    ({ db with wal := db.wal ++ [op] }, .ok table_name)

/-- Rust `Database::build_indexes`: one global index over the `name` column of
every row of every table. -/
def Database.build_indexes (db : Database) : Database :=
  let idx := db.tables.foldl (fun ix p =>
    p.2.rows.foldl (fun ix q =>
      match q.2.lookup "name" with
      | some value => ix.add value q.1
      | none => ix) ix) Indexer.new
  { db with indexer := some idx }

/-- Rust `Database::build_bloom_filter`: fixed size 1000, fed every `email` value. -/
def Database.build_bloom_filter (db : Database) : Database :=
  let bf := db.tables.foldl (fun bf p =>
    p.2.rows.foldl (fun bf q =>
      match q.2.lookup "email" with
      | some email => bf.add email
      | none => bf) bf) (BloomFilter.new 1000)
  { db with bloom_filter := some bf }

/-- One CSV record for a row: the id followed by the row's value at each of
`cols`, with missing fields as empty strings (`unwrap_or_default`). -/
def rowRecord (cols : List String) (id : String) (row : Row) : List String :=
  id :: cols.map (fun c => (row.lookup c).getD "")

/-- Rust `Database::save_table` (full save): the records written to the freshly
created CSV file — header `row_id` + sorted columns, the `datatypes` row when
present, then the remaining rows sorted by id (`rows.sort_by_key`). -/
def Database.save_table (db : Database) (table_name : String) :
    Except DatabaseError (List (List String)) :=
  match db.tables.lookup table_name with
  | none => .error (.TableDoesNotExist table_name)
  | some table =>
      let cols := sortStrings table.columns
      let hdr := "row_id" :: cols
      let dtRecs :=
        match table.rows.lookup "datatypes" with
        | some dt_row => [rowRecord cols "datatypes" dt_row]
        | none => []
      let userRows := sortByB (fun p q => strLe p.1 q.1)
        (table.rows.filter (fun p => p.1 ≠ "datatypes"))
      .ok (hdr :: (dtRecs ++ userRows.map (fun p => rowRecord cols p.1 p.2)))

/-- Rust `Database::save_table_for_insert` (append save).  `fileExists`
models the `Path::new(file_name).exists()` check at entry, which only selects
the open mode (append vs create) — unobservable at record granularity.  The
source then re-evaluates `path.exists()` to decide whether to write a header,
but by that point `.create(true).open()` has already created the file, so the
check is always true and no header is ever written, for a fresh file either.
The written records are the rows after skipping `saved_row_count` of the
iteration sequence, excluding `datatypes`; afterwards
`saved_row_count := table.rows.len()`. -/
def Database.save_table_for_insert (db : Database) (table_name : String)
    (fileExists : Bool) :
    Except DatabaseError (Database × List (List String)) :=
  match db.tables.lookup table_name with
  | none => .error (.TableDoesNotExist table_name)
  | some table =>
      let cols := sortStrings table.columns
      let unsaved := (table.rows.drop db.saved_row_count).filter
        (fun p => p.1 ≠ "datatypes")
      .ok ({ db with saved_row_count := table.rows.length },
           unsaved.map (fun p => rowRecord cols p.1 p.2))

/-- The row map a loaded CSV record yields: the header/field pairs past the
first column, inserted one by one (`data.insert(hdr, field)`). -/
def zipData (hdr rec : List String) : Row :=
  ((hdr.drop 1).zip (rec.drop 1)).foldl (fun m p => alInsert p.1 p.2 m) []

/-- Rust `Database::load_table_from_file`: the CSV file is given as its record
list (first record = header).  Each subsequent record is installed as a row
keyed by its first field, with data from the remaining header/field pairs. -/
def Database.load_table_from_file (db : Database) (table_name : String)
    (file : List (List String)) : Database :=
  let headers := file.headD []
  let table0 := (headers.drop 1).foldl (fun t h => t.add_column h) Table.new
  let table := (file.drop 1).foldl (fun t rec =>
    t.insert_row (rec.headD "") (zipData headers rec)) table0
  { db with tables := alInsert table_name table db.tables }

/-- Rust `Database::insert_row`.  The on-demand load of an absent table from
`<table>.csv` is not modelled: the claims below quantify over tables already
in memory, and an absent table yields `TableDoesNotExist` as in the
no-file case.  `fileExists` is threaded to the auto-save; the third component
is the records the auto-save wrote (empty when no save fired; save errors are
logged and swallowed by the source). -/
def Database.insert_row (db : Database) (table_name row_id : String) (data : Row)
    (fileExists : Bool) :
    Database × Except DatabaseError (List String) × List (List String) :=
  match db.tables.lookup table_name with
  | none => (db, .error (.TableDoesNotExist table_name), [])
  | some table =>
      let table := table.insert_row row_id data
      let db := { db with tables := alInsert table_name table db.tables }
      let op := "insert_row:" ++ table_name ++ ":" ++ row_id ++ ":" ++ jsonEncodeObj data
      let db := db.logOp op
      let db := { db with operations_since_save := db.operations_since_save + 1 }
      if db.save_threshold ≤ db.operations_since_save then
        match db.save_table_for_insert table_name fileExists with
        | .ok (db2, recs) =>
            ({ db2 with operations_since_save := 0 }, .ok [row_id, table_name], recs)
        | .error _ =>
            ({ db with operations_since_save := 0 }, .ok [row_id, table_name], [])
      else (db, .ok [row_id, table_name], [])

/-- Rust `Database::check_value_matches`. -/
def check_value_matches (value dtype : String) : Bool :=
  match dtype with
  | "int" => (parseI64 value).isSome
  | "float" => (parseF64 value).isSome
  | "bool" => strToLower value = "true" || strToLower value = "false"
  | "string" => true
  | _ => false

/-- The per-entry datatype check loop of `insert_row_with_datatype`: first
failing `(col, val)` pair decides the error. -/
def firstTypeError (table : Table) (row_id table_name : String) :
    Row → Option DatabaseError
  | [] => none
  | (col, val) :: rest =>
      match table.row_datatypes.lookup col with
      | some dt =>
          if check_value_matches val dt then firstTypeError table row_id table_name rest
          else some .DataTypeError
      | none => some (.RowDoesNotExist row_id table_name)

/-- Rust `Database::insert_row_with_datatype`: rejects an existing id (with the
`RowDoesNotExist` kind), validates every value against the declared column
type, then delegates to `insert_row`. -/
def Database.insert_row_with_datatype (db : Database) (table_name row_id : String)
    (data : Row) (fileExists : Bool) :
    Database × Except DatabaseError (List (List String)) × List (List String) :=
  match db.tables.lookup table_name with
  | none => (db, .error (.TableDoesNotExist table_name), [])
  | some table =>
      if (table.get_row row_id).isSome then
        (db, .error (.RowDoesNotExist row_id table_name), [])
      else
        match firstTypeError table row_id table_name data with
        | some e => (db, .error e, [])
        | none =>
            let r := db.insert_row table_name row_id data fileExists
            match r.2.1 with
            | .ok v => (r.1, .ok [v], r.2.2)
            | .error e => (r.1, .error e, r.2.2)

/-- Rust `Database::update_row`.  Mutates in place: the column is added (if absent)
before the row lookup, so the column addition survives the row-missing error
path; the update is logged and an unconditional `save_table` plus the
auto-save counter run on the success path (file output not returned — it
duplicates `save_table db table_name`). -/
def Database.update_row (db : Database) (table_name row_id column_name new_value : String) :
    Database × Except DatabaseError (List String) :=
  match db.tables.lookup table_name with
  | none => (db, .error (.TableDoesNotExist table_name))
  | some table =>
      let table :=
        if column_name ∈ table.columns then table else table.add_column column_name
      match table.rows.lookup row_id with
      | some row =>
          let row := alInsert column_name new_value row
          let table := { table with rows := alInsert row_id row table.rows }
          let db := { db with tables := alInsert table_name table db.tables }
          let op := "update_row:" ++ table_name ++ ":" ++ row_id ++ ":" ++
            column_name ++ ":" ++ jsonEncodeStr new_value
          let db := db.logOp op
          let db := { db with operations_since_save := db.operations_since_save + 1 }
          let db :=
            if db.save_threshold ≤ db.operations_since_save then
              { db with operations_since_save := 0 }
            else db
          (db, .ok [row_id, column_name, new_value])
      | none =>
          let db := { db with tables := alInsert table_name table db.tables }
          (db, .error (.RowDoesNotExist row_id table_name))

/-- Rust `Database::get_row` (table already in memory; the `{:?}` Debug rendering
of the returned row is modelled by returning the row itself). -/
def Database.get_row (db : Database) (table_name row_id : String) :
    Except DatabaseError (String × Row) :=
  match db.tables.lookup table_name with
  | none => .error (.TableDoesNotExist table_name)
  | some table =>
      match table.get_row row_id with
      | some row => .ok (row_id, row)
      | none => .error (.RowDoesNotExist row_id table_name)

/-- The index-path collection loop of `find_rows_by_value_in_table`: for each
indexed row id present in the table push the row, stopping after the first
when `return_many` is false. -/
def indexCollect (table : Table) (return_many : Bool) :
    List String → List (String × Row)
  | [] => []
  | rid :: rest =>
      match table.rows.lookup rid with
      | some row =>
          (rid, row) :: (if return_many then indexCollect table return_many rest else [])
      | none => indexCollect table return_many rest

/-- The full-scan loop of `find_rows_by_value_in_table`, with the Bloom-filter
short-circuit on the `email` column. -/
def scanRows (column value : String) (return_many : Bool) (bf : Option BloomFilter) :
    List (String × Row) → List (String × Row)
  | [] => []
  | (row_id, row_data) :: rest =>
      match row_data.lookup column with
      | none => scanRows column value return_many bf rest
      | some v =>
          let bloomSkip := column == "email" &&
            (match bf with | some b => !(b.contains v) | none => false)
          if bloomSkip then scanRows column value return_many bf rest
          else if v == value then
            (row_id, row_data) ::
              (if return_many then scanRows column value return_many bf rest else [])
          else scanRows column value return_many bf rest

/-- Rust `Database::find_rows_by_value_in_table`: if an indexer exists and holds
the value, answer from the index (filtered to ids present in the requested
table, without checking the queried column); otherwise full-scan. -/
def Database.find_rows_by_value_in_table (db : Database)
    (table_name column value : String) (return_many : Bool) :
    Except DatabaseError (List (String × Row)) :=
  let fullScan : Except DatabaseError (List (String × Row)) :=
    match db.tables.lookup table_name with
    | some table => .ok (scanRows column value return_many db.bloom_filter table.rows)
    | none => .error (.TableDoesNotExist table_name)
  match db.indexer with
  | some ix =>
      match ix.get value with
      | some row_ids =>
          match db.tables.lookup table_name with
          | some table => .ok (indexCollect table return_many row_ids)
          | none => .error (.TableDoesNotExist table_name)
      | none => fullScan
  | none => fullScan

/-- The per-row condition evaluation of `search_rows_by_condition_in_table`:
`==` is string equality; the four order operators compare numerically when
both sides parse as `f64` and lexicographically otherwise; anything else is
unsupported and never matches. -/
def condMet (operator val cond_value : String) : Bool :=
  match operator with
  | "==" => val == cond_value
  | ">" =>
      match parseF64 val, parseF64 cond_value with
      | some nv, some nc => FVal.lt nc nv
      | _, _ => strLt cond_value val
  | "<" =>
      match parseF64 val, parseF64 cond_value with
      | some nv, some nc => FVal.lt nv nc
      | _, _ => strLt val cond_value
  | ">=" =>
      match parseF64 val, parseF64 cond_value with
      | some nv, some nc => FVal.le nc nv
      | _, _ => strLe cond_value val
  | "<=" =>
      match parseF64 val, parseF64 cond_value with
      | some nv, some nc => FVal.le nv nc
      | _, _ => strLe val cond_value
  | _ => false

/-- Rust `Database::search_rows_by_condition_in_table`. -/
def Database.search_rows_by_condition_in_table (db : Database)
    (table_name condition : String) :
    Except DatabaseError (List (String × Row)) :=
  match db.tables.lookup table_name with
  | none => .error (.TableDoesNotExist table_name)
  | some table =>
      let parts := splitWhitespace condition
      if parts.length ≠ 3 then .ok []
      else
        let col := parts.getD 0 ""
        let operator := parts.getD 1 ""
        let cond_value := parts.getD 2 ""
        .ok (table.rows.filter (fun p =>
          match p.2.lookup col with
          | some val => condMet operator val cond_value
          | none => false))

/-- One step of the `flush_wal` replay loop.  The source indexes `parts[1..]`
unguarded (panicking on records the engine never produces); the model reads
them with a `""` default, diverging only where the source would abort.  Note
the source splits the whole entry at every `':'`, so an `insert_row` payload
containing a colon (any nonempty JSON object) fails to deserialize and the
entry is skipped with an error log. -/
def applyWalEntry (tables : List (String × Table)) (entry : String) :
    List (String × Table) :=
  let parts := splitChar ':' entry
  match parts.headD "" with
  | "create_table" => tables
  | "add_column" =>
      let tn := parts.getD 1 ""
      match tables.lookup tn with
      | some t => alInsert tn (t.add_column (parts.getD 2 "")) tables
      | none => tables
  | "insert_row" =>
      let tn := parts.getD 1 ""
      let rid := parts.getD 2 ""
      match parseJsonObj (parts.getD 3 "") with
      | some data =>
          match tables.lookup tn with
          | some t => alInsert tn (t.insert_row rid data) tables
          | none => tables
      | none => tables
  | "update_row" =>
      if parts.length < 5 then tables
      else
        let tn := parts.getD 1 ""
        let rid := parts.getD 2 ""
        let cn := parts.getD 3 ""
        let nv := (parseJsonStr (parts.getD 4 "")).getD (parts.getD 4 "")
        match tables.lookup tn with
        | some t =>
            match t.rows.lookup rid with
            | some row =>
                alInsert tn { t with rows := alInsert rid (alInsert cn nv row) t.rows } tables
            | none => tables
        | none => tables
  | _ => tables

/-- Rust `Database::flush_wal`: replay every in-memory log entry (always `Ok`). -/
def Database.flush_wal (db : Database) : Database :=
  { db with tables := db.wal.foldl applyWalEntry db.tables }

/-- Rust `Database::load_wal`, given the working log file's lines.  The source
reads the file line by line, skips blank lines, attempts to deserialize each
remaining line as a `HashMap<String, String>` — and does nothing with the
result (the `Ok` arm is the stub comment `// Process the row_data.`; the `Err`
arm only logs).  In particular `self.wal` is never populated. -/
def Database.load_wal (db : Database) (lines : List String) : Database :=
  lines.foldl (fun db ln =>
    if strTrim ln = "" then db
    else
      match parseJsonObj ln with
      | some _ => db
      | none => db) db

/-- Decidable equality on `Except`, for evaluating operation results. -/
instance {ε α : Type} [DecidableEq ε] [DecidableEq α] : DecidableEq (Except ε α) :=
  fun a b =>
    match a, b with
    | .ok x, .ok y =>
        if h : x = y then isTrue (by subst h; rfl)
        else isFalse (by intro hh; injection hh; contradiction)
    | .error e, .error f =>
        if h : e = f then isTrue (by subst h; rfl)
        else isFalse (by intro hh; injection hh; contradiction)
    | .ok _, .error _ => isFalse (by intro hh; injection hh)
    | .error _, .ok _ => isFalse (by intro hh; injection hh)

/-! ### Basic lemmas about the association-list model -/

theorem alInsert_lookup_self (k : String) (v : β) (l : List (String × β)) :
    (alInsert k v l).lookup k = some v := by
  induction l with
  | nil => simp [alInsert, List.lookup]
  | cons p rest ih =>
      obtain ⟨k', v'⟩ := p
      by_cases h : k = k'
      · subst h; simp [alInsert, List.lookup]
      · simp only [alInsert, if_neg h, List.lookup]
        have hbeq : (k == k') = false := beq_eq_false_iff_ne.mpr h
        simp [hbeq, ih]

theorem alInsert_lookup_ne (k k' : String) (v : β) (l : List (String × β))
    (h : k' ≠ k) : (alInsert k v l).lookup k' = l.lookup k' := by
  induction l with
  | nil => simp [alInsert, List.lookup, beq_eq_false_iff_ne.mpr h]
  | cons p rest ih =>
      obtain ⟨k₀, v₀⟩ := p
      by_cases hk : k = k₀
      · subst hk
        simp [alInsert, List.lookup, beq_eq_false_iff_ne.mpr h]
      · simp only [alInsert, if_neg hk, List.lookup]
        cases hbe : (k' == k₀) <;> simp [ih]

theorem lookup_mem {l : List (String × β)} {k : String} {v : β}
    (h : l.lookup k = some v) : (k, v) ∈ l := by
  induction l with
  | nil => simp [List.lookup] at h
  | cons p rest ih =>
      obtain ⟨k₀, v₀⟩ := p
      by_cases hk : k = k₀
      · subst hk
        simp [List.lookup] at h
        simp [h]
      · simp only [List.lookup, beq_eq_false_iff_ne.mpr hk] at h
        exact List.mem_cons_of_mem _ (ih h)

theorem alInsert_of_not_mem {l : List (String × β)} {k : String} (v : β)
    (h : k ∉ l.map Prod.fst) : alInsert k v l = l ++ [(k, v)] := by
  induction l with
  | nil => simp [alInsert]
  | cons p rest ih =>
      obtain ⟨k₀, v₀⟩ := p
      simp only [List.map_cons, List.mem_cons] at h
      push_neg at h
      simp [alInsert, h.1, ih h.2]

/-! ### Claim C10: Bloom filter invariant and in-bounds indexing -/

theorem bloom_add_length (bf : BloomFilter) (item : String) :
    (bf.add item).bit_array.length = bf.bit_array.length ∧ (bf.add item).size = bf.size := by
  simp [BloomFilter.add]

theorem bloom_fold_rows_inv (rows : List (String × Row)) (bf : BloomFilter)
    (h : bf.bit_array.length = bf.size) :
    (rows.foldl (fun bf q =>
      match q.2.lookup "email" with
      | some email => bf.add email
      | none => bf) bf).bit_array.length =
    (rows.foldl (fun bf q =>
      match q.2.lookup "email" with
      | some email => bf.add email
      | none => bf) bf).size ∧
    (rows.foldl (fun bf q =>
      match q.2.lookup "email" with
      | some email => bf.add email
      | none => bf) bf).size = bf.size := by
  induction rows generalizing bf with
  | nil => exact ⟨h, rfl⟩
  | cons p rest ih =>
      simp only [List.foldl_cons]
      cases hp : p.2.lookup "email" with
      | none => exact ih bf h
      | some email =>
          have := ih (bf.add email) (by simp [BloomFilter.add, h])
          simpa [BloomFilter.add] using this

theorem bloom_fold_tables_inv (tables : List (String × Table)) (bf : BloomFilter)
    (h : bf.bit_array.length = bf.size) :
    (tables.foldl (fun bf p =>
      p.2.rows.foldl (fun bf q =>
        match q.2.lookup "email" with
        | some email => bf.add email
        | none => bf) bf) bf).bit_array.length =
    (tables.foldl (fun bf p =>
      p.2.rows.foldl (fun bf q =>
        match q.2.lookup "email" with
        | some email => bf.add email
        | none => bf) bf) bf).size ∧
    (tables.foldl (fun bf p =>
      p.2.rows.foldl (fun bf q =>
        match q.2.lookup "email" with
        | some email => bf.add email
        | none => bf) bf) bf).size = bf.size := by
  induction tables generalizing bf with
  | nil => exact ⟨h, rfl⟩
  | cons p rest ih =>
      simp only [List.foldl_cons]
      have h1 := bloom_fold_rows_inv p.2.rows bf h
      have h2 := ih _ h1.1
      exact ⟨h2.1, h2.2.trans h1.2⟩

theorem bloom_new_length (n : Nat) : (BloomFilter.new n).bit_array.length = n := by
  simp [BloomFilter.new]

/-- Claim C10: for every BloomFilter constructed with size `n > 0`, the
invariant `bit_array.len() == size == n` holds after `new` and is preserved
by every `add`; `add` and `contains` index the bit array only at positions
`hash % size`, which are strictly below the array length; and the engine's
`build_bloom_filter` always constructs size 1000 (preserving the invariant
through all its `add` calls). -/
theorem claim_C10_bloom_filter_safety (n : Nat) (bf : BloomFilter) (item : String)
    (db : Database) (hn : 0 < n)
    (hsz : bf.size = n) (hlen : bf.bit_array.length = n) :
    ((BloomFilter.new n).size = n ∧ (BloomFilter.new n).bit_array.length = n)
    ∧ ((bf.add item).size = n ∧ (bf.add item).bit_array.length = n)
    ∧ (BloomFilter.hash1 item % bf.size < bf.bit_array.length
        ∧ BloomFilter.hash2 item % bf.size < bf.bit_array.length)
    ∧ (∃ bfe, (db.build_bloom_filter).bloom_filter = some bfe
        ∧ bfe.size = 1000 ∧ bfe.bit_array.length = 1000) := by
  refine ⟨⟨rfl, by simp [BloomFilter.new]⟩, ⟨by simp [BloomFilter.add, hsz],
    by simp [BloomFilter.add, hlen]⟩, ?_, ?_⟩
  · have hpos : 0 < bf.size := hsz ▸ hn
    exact ⟨hlen ▸ hsz ▸ Nat.mod_lt _ hpos, hlen ▸ hsz ▸ Nat.mod_lt _ hpos⟩
  · refine ⟨_, rfl, ?_, ?_⟩
    · exact (bloom_fold_tables_inv db.tables (BloomFilter.new 1000)
        (bloom_new_length 1000)).2
    · have h := bloom_fold_tables_inv db.tables (BloomFilter.new 1000)
        (bloom_new_length 1000)
      exact h.1.trans h.2

/-- Witness for C10 at `n = 1000`, a freshly built filter, item `"a@x"`, and
the fresh database. -/
theorem claim_C10_witness :
    (0 < 1000 ∧ (BloomFilter.new 1000).size = 1000
      ∧ (BloomFilter.new 1000).bit_array.length = 1000)
    ∧ (((BloomFilter.new 1000).add "a@x").size = 1000
        ∧ BloomFilter.hash1 "a@x" % (BloomFilter.new 1000).size
            < (BloomFilter.new 1000).bit_array.length) := by
  have h := claim_C10_bloom_filter_safety 1000 (BloomFilter.new 1000) "a@x"
    Database.new (by decide) rfl (bloom_new_length 1000)
  exact ⟨⟨by decide, rfl, bloom_new_length 1000⟩, h.2.1.1, h.2.2.1.1⟩

/-! ### Claim C9: update_row's row-missing error path still adds the column -/

/-- Claim C9: for every table `T` present in the database, absent row id `r`,
and column `c` not yet in `T`'s column list, `update_row` returns the
`RowDoesNotExist` error, yet `c` has been appended to `T`'s columns (the rows
are untouched), and no log record is emitted (neither to the in-memory log
nor to the async writer's queue). -/
theorem claim_C9_update_row_not_atomic (db : Database) (n r c v : String) (T : Table)
    (hT : db.tables.lookup n = some T)
    (hr : T.rows.lookup r = none)
    (hc : c ∉ T.columns) :
    (db.update_row n r c v).2 = .error (.RowDoesNotExist r n)
    ∧ (db.update_row n r c v).1.tables.lookup n = some (T.add_column c)
    ∧ (T.add_column c).columns = T.columns ++ [c]
    ∧ (T.add_column c).rows = T.rows
    ∧ (db.update_row n r c v).1.wal = db.wal
    ∧ (db.update_row n r c v).1.wal_writer = db.wal_writer := by
  have hcol : (T.add_column c).columns = T.columns ++ [c] := by
    simp [Table.add_column, hc]
  have hrows : (T.add_column c).rows = T.rows := by
    simp [Table.add_column, hc]
  have hlook : (T.add_column c).rows.lookup r = none := hrows ▸ hr
  have key : db.update_row n r c v =
      ({ db with tables := alInsert n (T.add_column c) db.tables },
        .error (.RowDoesNotExist r n)) := by
    simp only [Database.update_row, hT, if_neg hc, hlook]
  rw [key]
  exact ⟨rfl, alInsert_lookup_self _ _ _, hcol, hrows, rfl, rfl⟩

/-- Witness for C9: a database holding one table `t` with no rows; updating
the absent row `1` at the fresh column `age` errors but appends the column. -/
theorem claim_C9_witness :
    ((⟨[("t", Table.new)], 0, 5, [], "wal.log", [], 0, none, none, none⟩ :
        Database).update_row "t" "1" "age" "30").2 =
      .error (.RowDoesNotExist "1" "t")
    ∧ ((⟨[("t", Table.new)], 0, 5, [], "wal.log", [], 0, none, none, none⟩ :
        Database).update_row "t" "1" "age" "30").1.tables.lookup "t" =
      some (Table.new.add_column "age") := by
  have h := claim_C9_update_row_not_atomic
    ⟨[("t", Table.new)], 0, 5, [], "wal.log", [], 0, none, none, none⟩
    "t" "1" "age" "30" Table.new (by decide) (by decide) (by decide)
  exact ⟨h.1, h.2.1⟩

/-! ### Claim C4: duplicate insertion -/

/-- The in-memory effect of `insert_row` on the table map, for a present
table: regardless of whether the auto-save fires, the row is installed via
`Table::insert_row`. -/
theorem logOp_tables (d : Database) (op : String) : (d.logOp op).tables = d.tables := by
  cases h : d.wal_writer <;> simp [Database.logOp, h]

theorem save_for_insert_ok_tables {db : Database} {n : String} {fe : Bool}
    {p : Database × List (List String)}
    (h : db.save_table_for_insert n fe = .ok p) : p.1.tables = db.tables := by
  unfold Database.save_table_for_insert at h
  cases hl : db.tables.lookup n with
  | none => rw [hl] at h; exact absurd h (by simp)
  | some t =>
      rw [hl] at h
      simp only [Except.ok.injEq] at h
      rw [← h]

theorem insert_row_tables (db : Database) (n r : String) (data : Row) (T : Table)
    (fe : Bool) (hT : db.tables.lookup n = some T) :
    (db.insert_row n r data fe).1.tables = alInsert n (T.insert_row r data) db.tables
    ∧ (db.insert_row n r data fe).2.1 = .ok [r, n] := by
  simp only [Database.insert_row, hT]
  split
  · split
    · next db2 recs heq =>
        refine ⟨?_, rfl⟩
        have h2 : db2.tables = _ := save_for_insert_ok_tables heq
        rw [h2]
        simp [logOp_tables]
    · exact ⟨by simp [logOp_tables], rfl⟩
  · exact ⟨by simp [logOp_tables], rfl⟩

/-- The database used for claim C4: table `t` with column `c` and one row
`1 ↦ (c ↦ old)`. -/
def dbC4 : Database :=
  { Database.new with tables := [("t", ⟨["c"], [("1", [("c", "old")])], []⟩)] }

/-- Claim C4 counterexample: inserting the already-present id `1` through
plain `insert_row` does NOT return an error — it returns `Ok` — and it does
NOT leave the existing row unchanged: the row's contents become the new data.
This refutes the claim as stated for the `insert_row` path. -/
theorem claim_C4_counterexample :
    (dbC4.insert_row "t" "1" [("c", "new")] false).2.1 = .ok ["1", "t"]
    ∧ ((dbC4.insert_row "t" "1" [("c", "new")] false).1.tables.lookup "t").map
        (fun t => t.rows.lookup "1") = some (some [("c", "new")])
    ∧ ([("c", "new")] : Row) ≠ [("c", "old")] := by decide

/-- Claim C4 (amended): only `insert_row_with_datatype` rejects a duplicate
id — it returns an error (of the `RowDoesNotExist` kind) and leaves the
database unchanged — while plain `insert_row` accepts the duplicate,
returning success and overwriting the stored row with the new data. -/
theorem claim_C4_amended (db : Database) (n r : String) (row data : Row) (T : Table)
    (fe : Bool)
    (hT : db.tables.lookup n = some T)
    (hr : T.rows.lookup r = some row)
    (hnd : r ≠ "datatypes") :
    db.insert_row_with_datatype n r data fe = (db, .error (.RowDoesNotExist r n), [])
    ∧ (db.insert_row n r data fe).2.1 = .ok [r, n]
    ∧ ∃ T', (db.insert_row n r data fe).1.tables.lookup n = some T'
        ∧ T'.rows.lookup r = some data := by
  have hget : T.get_row r = some row := by
    simp [Table.get_row, hnd, hr]
  refine ⟨?_, ?_, ?_⟩
  · simp [Database.insert_row_with_datatype, hT, hget]
  · exact (insert_row_tables db n r data T fe hT).2
  · refine ⟨T.insert_row r data, ?_, ?_⟩
    · rw [(insert_row_tables db n r data T fe hT).1]
      exact alInsert_lookup_self _ _ _
    · exact alInsert_lookup_self _ _ _

/-- Witness for the amended C4 at the concrete database `dbC4`. -/
theorem claim_C4_witness :
    dbC4.insert_row_with_datatype "t" "1" [("c", "new")] false =
      (dbC4, .error (.RowDoesNotExist "1" "t"), [])
    ∧ (dbC4.insert_row "t" "1" [("c", "new")] false).2.1 = .ok ["1", "t"] := by
  have h := claim_C4_amended dbC4 "t" "1" [("c", "old")] [("c", "new")]
    ⟨["c"], [("1", [("c", "old")])], []⟩ false (by decide) (by decide) (by decide)
  exact ⟨h.1, h.2.1⟩

/-! ### The spec-side replay semantics (for C1 and C3) -/

/-- Modelled from the spec: the intended effect of replaying one log record.
§3 gives the record grammar, §4.3 the replay rules (`create_table` and
`add_column` idempotent; `insert_row` installs the row only if its id is
absent; `update_row` requires the row to exist), and §9 mandates bounded-arity
splitting — the final field is the colon-joined remainder of the record. -/
def specApplyRecord (tables : List (String × Table)) (entry : String) :
    List (String × Table) :=
  let parts := splitChar ':' entry
  match parts.headD "" with
  | "create_table" =>
      let tn := parts.getD 1 ""
      if (tables.lookup tn).isSome then tables else alInsert tn Table.new tables
  | "add_column" =>
      let tn := parts.getD 1 ""
      match tables.lookup tn with
      | some t => alInsert tn (t.add_column (parts.getD 2 "")) tables
      | none => tables
  | "insert_row" =>
      let tn := parts.getD 1 ""
      let rid := parts.getD 2 ""
      let payload := String.intercalate ":" (parts.drop 3)
      match parseJsonObj payload, tables.lookup tn with
      | some data, some t =>
          if (t.rows.lookup rid).isSome then tables
          else alInsert tn (t.insert_row rid data) tables
      | _, _ => tables
  | "update_row" =>
      let tn := parts.getD 1 ""
      let rid := parts.getD 2 ""
      let cn := parts.getD 3 ""
      let payload := String.intercalate ":" (parts.drop 4)
      let nv := (parseJsonStr payload).getD payload
      match tables.lookup tn with
      | some t =>
          match t.rows.lookup rid with
          | some row =>
              alInsert tn { t with rows := alInsert rid (alInsert cn nv row) t.rows } tables
          | none => tables
      | none => tables
  | _ => tables

/-- Modelled from the spec: startup replay applies each working-log record in
order to the table store (§4.3 "Replay at startup … reads the working log
line-by-line and applies each record to a fresh Database"). -/
def specReplay (lines : List String) (tables : List (String × Table)) :
    List (String × Table) :=
  lines.foldl specApplyRecord tables

/-! ### Claim C1: startup recovery -/

/-- The working log file for claim C1: two valid records. -/
def c1lines : List String :=
  ["create_table:t", "insert_row:t:1:\x7b\"name\":\"a\"\x7d"]

/-- Claim C1 is a code bug: `load_wal` parses and then discards every line of
the working log (its `Ok` arm is an empty stub), so it changes nothing at all;
`flush_wal` on the fresh database then replays an empty in-memory log.  The
tables stay empty instead of reflecting the records, diverging from the
spec-side replay of the same lines. -/
theorem claim_C1_recovery_code_bug :
    (∀ (db : Database) (lines : List String), db.load_wal lines = db)
    ∧ ((Database.new.load_wal c1lines).flush_wal).tables = []
    ∧ specReplay c1lines [] = [("t", ⟨[], [("1", [("name", "a")])], []⟩)]
    ∧ ((Database.new.load_wal c1lines).flush_wal).tables ≠ specReplay c1lines [] := by
  have hid : ∀ (db : Database) (lines : List String), db.load_wal lines = db := by
    intro db lines
    induction lines generalizing db with
    | nil => rfl
    | cons ln rest ih =>
        show (db.load_wal (ln :: rest)) = db
        unfold Database.load_wal at *
        simp only [List.foldl_cons]
        have hstep : (if strTrim ln = "" then db
            else match parseJsonObj ln with
            | some _ => db
            | none => db) = db := by
          split
          · rfl
          · split <;> rfl
        rw [hstep]
        exact ih db

  exact ⟨hid, by rw [hid]; decide, by decide, by rw [hid]; decide⟩

/-! ### Claim C3: replay rules and idempotence -/

/-- Claim C3 databases: `dbC3` has table `t` with row `r ↦ (c ↦ old)` and a
logged insert of the same id with empty payload; `dbC3b` has an empty table
`t` and a logged insert with a nonempty JSON payload. -/
def dbC3 : Database :=
  { Database.new with
      tables := [("t", ⟨["c"], [("r", [("c", "old")])], []⟩)]
      wal := ["insert_row:t:r:\x7b\x7d"] }

def dbC3b : Database :=
  { Database.new with
      tables := [("t", Table.new)]
      wal := ["insert_row:t:r:\x7b\"name\":\"a\"\x7d"] }

/-- Claim C3 is a code bug (the spec itself flags it in §9): during replay an
`insert_row` record is applied by an unguarded `HashMap::insert`, so with id
`r` already present the stored row is overwritten (here: cleared to the empty
payload), where the spec-mandated id-presence guard would leave it unchanged.
A second divergence: an `insert_row` record with a nonempty JSON payload never
replays at all, because `flush_wal` splits the whole entry at every `':'` and
the payload fragment fails to deserialize — while the spec-side replay
installs the row. -/
theorem claim_C3_replay_code_bug :
    (dbC3.flush_wal).tables.lookup "t" = some ⟨["c"], [("r", [])], []⟩
    ∧ specReplay dbC3.wal dbC3.tables = dbC3.tables
    ∧ (dbC3.flush_wal).tables ≠ dbC3.tables
    ∧ (dbC3b.flush_wal).tables = dbC3b.tables
    ∧ specReplay dbC3b.wal dbC3b.tables =
        [("t", ⟨[], [("r", [("name", "a")])], []⟩)]
    ∧ specReplay dbC3b.wal dbC3b.tables ≠ dbC3b.tables := by decide

/-! ### Claim C8: visibility of the reserved datatypes row -/

/-- The database for claim C8: table `t` whose only row is the reserved
`datatypes` row, mapping column `age` to the type tag `int`. -/
def dbC8 : Database :=
  { Database.new with
      tables := [("t", ⟨["age"], [("datatypes", [("age", "int")])], [("age", "int")]⟩)] }

/-- Claim C8 is a code bug for the query paths: `find_rows_by_value_in_table`
and `search_rows_by_condition_in_table` iterate over every row of the table,
including the reserved `datatypes` row, and return it as an ordinary result —
the spec says it "must never be returned by ordinary queries".  (The
`get_row` path does hide it, per the spec-modelled `Table::get_row`.) -/
theorem claim_C8_datatypes_row_leaks :
    dbC8.find_rows_by_value_in_table "t" "age" "int" true =
      .ok [("datatypes", [("age", "int")])]
    ∧ dbC8.search_rows_by_condition_in_table "t" "age == int" =
      .ok [("datatypes", [("age", "int")])]
    ∧ dbC8.get_row "t" "datatypes" = .error (.RowDoesNotExist "datatypes" "t") := by
  decide

/-! ### Order-theoretic facts about the lexicographic comparison and sorting -/

theorem lexLt_asymm : ∀ {a b : List Char}, lexLt a b = true → lexLt b a = false
  | [], [], h => by simp [lexLt] at h
  | [], _ :: _, _ => by simp [lexLt]
  | _ :: _, [], h => by simp [lexLt] at h
  | x :: xs, y :: ys, h => by
      simp only [lexLt] at h ⊢
      by_cases hxy : x.toNat < y.toNat
      · simp [hxy, Nat.not_lt.mpr (Nat.le_of_lt hxy), Nat.lt_asymm hxy]
      · by_cases hyx : y.toNat < x.toNat
        · simp [hxy, hyx] at h
        · simp only [hxy, hyx, if_false] at h ⊢
          simp [lexLt_asymm h]

theorem lexLt_trans : ∀ {a b c : List Char},
    lexLt a b = true → lexLt b c = true → lexLt a c = true
  | [], _, _ :: _, _, _ => by simp [lexLt]
  | [], _ :: _, [], _, h₂ => by simp [lexLt] at h₂
  | [], [], [], h₁, _ => by simp [lexLt] at h₁
  | _ :: _, [], _, h₁, _ => by simp [lexLt] at h₁
  | _ :: _, _ :: _, [], _, h₂ => by simp [lexLt] at h₂
  | x :: xs, y :: ys, z :: zs, h₁, h₂ => by
      simp only [lexLt] at h₁ h₂ ⊢
      by_cases hxy : x.toNat < y.toNat
      · by_cases hyz : y.toNat < z.toNat
        · simp [Nat.lt_trans hxy hyz]
        · by_cases hzy : z.toNat < y.toNat
          · simp [hyz, hzy] at h₂
          · have : y.toNat = z.toNat := Nat.le_antisymm (Nat.not_lt.mp hzy) (Nat.not_lt.mp hyz)
            simp [this ▸ hxy]
      · by_cases hyx : y.toNat < x.toNat
        · simp [hxy, hyx] at h₁
        · have hxeq : x.toNat = y.toNat := Nat.le_antisymm (Nat.not_lt.mp hyx) (Nat.not_lt.mp hxy)
          simp only [hxy, hyx, if_false] at h₁
          by_cases hyz : y.toNat < z.toNat
          · simp [hxeq ▸ hyz]
          · by_cases hzy : z.toNat < y.toNat
            · simp [hyz, hzy] at h₂
            · simp only [hyz, hzy, if_false] at h₂
              simp [hxeq.symm ▸ hyz, hxeq.symm ▸ hzy, lexLt_trans h₁ h₂]

theorem lexLt_eq_of_not : ∀ {a b : List Char},
    lexLt a b = false → lexLt b a = false → a = b
  | [], [], _, _ => rfl
  | [], _ :: _, h₁, _ => by simp [lexLt] at h₁
  | _ :: _, [], _, h₂ => by simp [lexLt] at h₂
  | x :: xs, y :: ys, h₁, h₂ => by
      simp only [lexLt] at h₁ h₂
      by_cases hxy : x.toNat < y.toNat
      · simp [hxy] at h₁
      · by_cases hyx : y.toNat < x.toNat
        · simp [hxy, hyx] at h₂
        · have hc : x = y := by
            apply Char.ext; apply UInt32.ext
            exact Nat.le_antisymm (Nat.not_lt.mp hyx) (Nat.not_lt.mp hxy)
          simp only [hxy, hyx, if_false] at h₁ h₂
          rw [hc, lexLt_eq_of_not h₁ h₂]

theorem strLe_of_not (a b : String) (h : strLe a b = false) : strLe b a = true := by
  simp only [strLe, Bool.not_eq_false'] at h
  simp only [strLe, Bool.not_eq_true']
  exact lexLt_asymm h

theorem strLe_trans {a b c : String} (h₁ : strLe a b = true) (h₂ : strLe b c = true) :
    strLe a c = true := by
  simp only [strLe, strLt, Bool.not_eq_true'] at h₁ h₂ ⊢
  by_cases hca : lexLt c.data a.data = true
  · by_cases hbc : lexLt b.data c.data = true
    · rw [lexLt_trans hbc hca] at h₁; cases h₁
    · have hbceq : b.data = c.data :=
        lexLt_eq_of_not (by simpa using hbc) h₂
      rw [← hbceq] at hca
      rw [hca] at h₁; cases h₁
  · simpa using hca

theorem insertSorted_perm (le : α → α → Bool) (x : α) (l : List α) :
    (insertSorted le x l).Perm (x :: l) := by
  induction l with
  | nil => simp [insertSorted]
  | cons y ys ih =>
      simp only [insertSorted]
      by_cases h : le x y = true
      · simp [h]
      · simp only [h, if_false]
        exact ((ih.cons y).trans (List.Perm.swap x y ys))

theorem sortByB_perm (le : α → α → Bool) (l : List α) : (sortByB le l).Perm l := by
  induction l with
  | nil => simp [sortByB]
  | cons x xs ih =>
      exact (insertSorted_perm le x (sortByB le xs)).trans (ih.cons x)

theorem pairwise_insertSorted (le : α → α → Bool)
    (htot : ∀ a b, le a b = false → le b a = true)
    (htrans : ∀ a b c, le a b = true → le b c = true → le a c = true)
    (x : α) (l : List α) (hl : l.Pairwise (fun a b => le a b = true)) :
    (insertSorted le x l).Pairwise (fun a b => le a b = true) := by
  induction l with
  | nil => simp [insertSorted]
  | cons y ys ih =>
      rcases List.pairwise_cons.mp hl with ⟨hy, hys⟩
      simp only [insertSorted]
      by_cases h : le x y = true
      · simp only [h, if_true]
        refine List.pairwise_cons.mpr ⟨?_, hl⟩
        intro z hz
        rcases List.mem_cons.mp hz with hzy | hz
        · rw [hzy]; exact h
        · exact htrans x y z h (hy z hz)
      · simp only [h, if_false]
        refine List.pairwise_cons.mpr ⟨?_, ih hys⟩
        intro z hz
        have hz' := (insertSorted_perm le x ys).mem_iff.mp hz
        rcases List.mem_cons.mp hz' with hzx | hz'
        · rw [hzx]
          exact htot x y (by simpa using h)
        · exact hy z hz'

theorem pairwise_sortByB (le : α → α → Bool)
    (htot : ∀ a b, le a b = false → le b a = true)
    (htrans : ∀ a b c, le a b = true → le b c = true → le a c = true)
    (l : List α) : (sortByB le l).Pairwise (fun a b => le a b = true) := by
  induction l with
  | nil => simp [sortByB]
  | cons x xs ih => exact pairwise_insertSorted le htot htrans x (sortByB le xs) ih

/-! ### Claim C2: exact-match find -/

/-- The row predicate of the spec's find-by-value: the row's entry at `col`
equals `v`. -/
def matchesVal (col v : String) (p : String × Row) : Bool :=
  match p.2.lookup col with
  | some x => x == v
  | none => false

theorem scanRows_subset (col v : String) (multi : Bool) (bf : Option BloomFilter) :
    ∀ (rows : List (String × Row)) (p : String × Row),
      p ∈ scanRows col v multi bf rows → p ∈ rows := by
  intro rows
  induction rows with
  | nil => intro p hp; simp [scanRows] at hp
  | cons q rest ih =>
      intro p hp
      obtain ⟨rid, rowd⟩ := q
      simp only [scanRows] at hp
      split at hp
      · exact List.mem_cons_of_mem _ (ih p hp)
      · split at hp
        · exact List.mem_cons_of_mem _ (ih p hp)
        · split at hp
          · rcases List.mem_cons.mp hp with hpe | hp'
            · rw [hpe]; exact List.mem_cons_self _ _
            · split at hp'
              · exact List.mem_cons_of_mem _ (ih p hp')
              · simp at hp'
          · exact List.mem_cons_of_mem _ (ih p hp)

theorem indexCollect_subset (T : Table) (multi : Bool) :
    ∀ (ids : List String) (p : String × Row),
      p ∈ indexCollect T multi ids → p ∈ T.rows := by
  intro ids
  induction ids with
  | nil => intro p hp; simp [indexCollect] at hp
  | cons rid rest ih =>
      intro p hp
      simp only [indexCollect] at hp
      split at hp
      · next row heq =>
          rcases List.mem_cons.mp hp with hpe | hp'
          · rw [hpe]; exact lookup_mem heq
          · split at hp'
            · exact ih p hp'
            · simp at hp'
      · exact ih p hp

theorem scanRows_eq_filter (col v : String) (rows : List (String × Row)) :
    scanRows col v true none rows = rows.filter (matchesVal col v) := by
  induction rows with
  | nil => simp [scanRows]
  | cons q rest ih =>
      obtain ⟨rid, rowd⟩ := q
      simp only [scanRows]
      cases hl : List.lookup col rowd with
      | none => simp [List.filter_cons, matchesVal, hl, ih]
      | some x =>
          by_cases hxv : (x == v) = true
          · simp [List.filter_cons, matchesVal, hl, hxv, ih]
          · simp [List.filter_cons, matchesVal, hl, hxv, ih]

theorem scanRows_eq_take_one (col v : String) (rows : List (String × Row)) :
    scanRows col v false none rows = (rows.filter (matchesVal col v)).take 1 := by
  induction rows with
  | nil => simp [scanRows]
  | cons q rest ih =>
      obtain ⟨rid, rowd⟩ := q
      simp only [scanRows]
      cases hl : List.lookup col rowd with
      | none => simp [List.filter_cons, matchesVal, hl, ih]
      | some x =>
          by_cases hxv : (x == v) = true
          · simp [List.filter_cons, matchesVal, hl, hxv]
          · simp [List.filter_cons, matchesVal, hl, hxv, ih]

/-- The database for the C2 counterexample: one table `t`, one row whose
`name` is `alice` and whose `age` is `30`, with the indexes built by the
engine's own `build_indexes`. -/
def dbC2 : Database :=
  ({ Database.new with
      tables := [("t", ⟨["name", "age"],
        [("1", [("name", "alice"), ("age", "30")])], []⟩)] }).build_indexes

/-- Claim C2 counterexample: after `build_indexes`, querying table `t` for
`age = alice` is answered from the (name-keyed) index: the row with
`age = 30` is returned even though its value at the queried column differs
from the requested value — refuting "never returns a row … whose value at col
differs from v, regardless of whether the index or the full scan answers". -/
theorem claim_C2_counterexample :
    dbC2.find_rows_by_value_in_table "t" "age" "alice" true =
      .ok [("1", [("name", "alice"), ("age", "30")])]
    ∧ (([("name", "alice"), ("age", "30")] : Row).lookup "age") = some "30"
    ∧ ("30" : String) ≠ "alice"
    ∧ dbC2.tables.lookup "t" =
        some ⟨["name", "age"], [("1", [("name", "alice"), ("age", "30")])], []⟩ := by
  decide

/-- Claim C2 (amended): find is always table-scoped — every returned pair is
an entry of the requested table's row map, on both the index path and the
scan path — and when the index does not answer (the indexer is absent, or it
is present but has no entry for `v`, which the code routes to the same full
scan) the full scan is exact: with no Bloom filter attached, `multi = true`
returns exactly the rows of `T` whose entry at `col` equals `v`, and
`multi = false` returns the first such row.  (The index path may return rows
whose value at `col` differs from `v` when `col` is not the indexed column,
as the counterexample shows.) -/
theorem claim_C2_find_amended (db : Database) (n col v : String) (T : Table)
    (hT : db.tables.lookup n = some T) :
    (∀ (multi : Bool) (rs : List (String × Row)),
        db.find_rows_by_value_in_table n col v multi = .ok rs →
        ∀ p ∈ rs, p ∈ T.rows)
    ∧ ((∀ ix, db.indexer = some ix → ix.get v = none) → db.bloom_filter = none →
        db.find_rows_by_value_in_table n col v true =
          .ok (T.rows.filter (matchesVal col v))
        ∧ db.find_rows_by_value_in_table n col v false =
          .ok ((T.rows.filter (matchesVal col v)).take 1)) := by
  constructor
  · intro multi rs hrs p hp
    unfold Database.find_rows_by_value_in_table at hrs
    cases hix : db.indexer with
    | none =>
        simp only [hix, hT, Except.ok.injEq] at hrs
        rw [← hrs] at hp
        exact scanRows_subset _ _ _ _ _ _ hp
    | some ix =>
        simp only [hix] at hrs
        cases hg : ix.get v with
        | some ids =>
            simp only [hg, hT, Except.ok.injEq] at hrs
            rw [← hrs] at hp
            exact indexCollect_subset _ _ _ _ hp
        | none =>
            simp only [hg, hT, Except.ok.injEq] at hrs
            rw [← hrs] at hp
            exact scanRows_subset _ _ _ _ _ _ hp
  · intro hmiss hbf
    unfold Database.find_rows_by_value_in_table
    cases hix : db.indexer with
    | none =>
        simp only [hbf, hT]
        exact ⟨by rw [scanRows_eq_filter], by rw [scanRows_eq_take_one]⟩
    | some ix =>
        have hg : ix.get v = none := hmiss ix hix
        simp only [hg, hbf, hT]
        exact ⟨by rw [scanRows_eq_filter], by rw [scanRows_eq_take_one]⟩

/-- The database for the C2 witness: an indexer is attached but holds no
entry for the queried value `30`, so find falls back to the full scan (the
index-miss case of the amended claim). -/
def dbC2w : Database :=
  { Database.new with
      tables := [("t", ⟨["age"],
        [("1", [("age", "30")]), ("2", [("age", "31")])], []⟩)]
      indexer := some ⟨[("zzz", ["9"])]⟩ }

/-- Witness for the amended C2 at `dbC2w`, exercising the index-miss path. -/
theorem claim_C2_witness :
    dbC2w.find_rows_by_value_in_table "t" "age" "30" true = .ok [("1", [("age", "30")])]
    ∧ dbC2w.find_rows_by_value_in_table "t" "age" "30" false =
        .ok [("1", [("age", "30")])] := by
  have h := (claim_C2_find_amended dbC2w "t" "age" "30"
    ⟨["age"], [("1", [("age", "30")]), ("2", [("age", "31")])], []⟩ (by decide)).2
    (by
      intro ix hx
      have h0 : some (⟨[("zzz", ["9"])]⟩ : Indexer) = some ix := hx
      rw [← Option.some.inj h0]
      decide)
    rfl
  exact ⟨h.1.trans (by decide), h.2.trans (by decide)⟩

/-! ### Claim C6: predicate search -/

/-- The predicate semantics of the amended C6, stated from the spec's words:
`==` compares the strings themselves; each of the four order operators
compares numerically when both operands parse as 64-bit floats and
lexicographically otherwise; any other operator matches nothing. -/
def specCondMet (op val cond : String) : Bool :=
  if op = "==" then val == cond
  else if op = ">" ∨ op = "<" ∨ op = ">=" ∨ op = "<=" then
    match parseF64 val, parseF64 cond with
    | some nv, some nc =>
        if op = ">" then FVal.lt nc nv
        else if op = "<" then FVal.lt nv nc
        else if op = ">=" then FVal.le nc nv
        else FVal.le nv nc
    | _, _ =>
        if op = ">" then strLt cond val
        else if op = "<" then strLt val cond
        else if op = ">=" then strLe cond val
        else strLe val cond
  else false

theorem condMet_eq_spec (op val cond : String) :
    condMet op val cond = specCondMet op val cond := by
  by_cases h1 : op = "=="
  · subst h1; simp [condMet, specCondMet]
  · by_cases h2 : op = ">"
    · subst h2
      cases parseF64 val <;> cases parseF64 cond <;> simp [condMet, specCondMet]
    · by_cases h3 : op = "<"
      · subst h3
        cases parseF64 val <;> cases parseF64 cond <;> simp [condMet, specCondMet]
      · by_cases h4 : op = ">="
        · subst h4
          cases parseF64 val <;> cases parseF64 cond <;> simp [condMet, specCondMet]
        · by_cases h5 : op = "<="
          · subst h5
            cases parseF64 val <;> cases parseF64 cond <;> simp [condMet, specCondMet]
          · simp [condMet, specCondMet, h1, h2, h3, h4, h5]

theorem condMet_unsupported (op val cond : String)
    (h : op ∉ (["==", ">", "<", ">=", "<="] : List String)) :
    condMet op val cond = false := by
  simp only [List.mem_cons, List.mem_singleton] at h
  push_neg at h
  obtain ⟨h1, h2, h3, h4, h5⟩ := h
  simp [condMet, h1, h2, h3, h4, h5]

/-- Claim C6 (amended): for a table present in memory, a condition that does
not split into exactly three whitespace tokens returns an empty `Ok`; with
three tokens `col op v`, an operator outside the supported five also returns
an empty `Ok`, and a supported operator returns exactly the rows whose value
at `col` satisfies the comparison — where `==` compares the strings
literally, and the four order operators compare numerically when both the
stored value and the condition value parse as 64-bit floats and
lexicographically otherwise. -/
theorem claim_C6_search_amended (db : Database) (n cond : String) (T : Table)
    (hT : db.tables.lookup n = some T) :
    ((splitWhitespace cond).length ≠ 3 →
        db.search_rows_by_condition_in_table n cond = .ok [])
    ∧ (∀ col op v, splitWhitespace cond = [col, op, v] →
        (op ∉ (["==", ">", "<", ">=", "<="] : List String) →
            db.search_rows_by_condition_in_table n cond = .ok [])
        ∧ db.search_rows_by_condition_in_table n cond =
            .ok (T.rows.filter (fun p =>
              match p.2.lookup col with
              | some val => specCondMet op val v
              | none => false))) := by
  constructor
  · intro hlen
    unfold Database.search_rows_by_condition_in_table
    simp only [hT]
    rw [if_pos hlen]
  · intro col op v hparts
    have hresult : db.search_rows_by_condition_in_table n cond =
        .ok (T.rows.filter (fun p =>
          match p.2.lookup col with
          | some val => condMet op val v
          | none => false)) := by
      unfold Database.search_rows_by_condition_in_table
      simp only [hT, hparts]
      rw [if_neg (by simp)]
      simp [List.getD]
    constructor
    · intro hop
      rw [hresult]
      congr 1
      apply List.filter_eq_nil_iff.mpr
      intro p _
      cases hl : p.2.lookup col <;> simp [hl, condMet_unsupported op _ v hop]
    · rw [hresult]
      congr 1
      apply List.filter_congr
      intro p _
      cases hl : p.2.lookup col <;> simp [hl, condMet_eq_spec]

/-- The database for claim C6: table `t` with one row whose `age` is
the string `40`. -/
def dbC6 : Database :=
  { Database.new with tables := [("t", ⟨["age"], [("1", [("age", "40")])], []⟩)] }

/-- Claim C6 counterexample: the stored value `40` and the condition value
`40.0` both parse as floats and are numerically equal, so under the claim's
comparison rule (numeric whenever both parse) the row satisfies
`age == 40.0`; but the engine's `==` compares the strings and returns no
rows. -/
theorem claim_C6_counterexample :
    dbC6.search_rows_by_condition_in_table "t" "age == 40.0" = .ok []
    ∧ parseF64 "40" = some (.fin 40)
    ∧ parseF64 "40.0" = some (.fin 40)
    ∧ (([("age", "40")] : Row).lookup "age") = some "40" := by decide

/-- Witness for the amended C6 at `dbC6`: a numeric-order query returns the
matching row; a two-token condition returns empty. -/
theorem claim_C6_witness :
    dbC6.search_rows_by_condition_in_table "t" "age > 30" = .ok [("1", [("age", "40")])]
    ∧ dbC6.search_rows_by_condition_in_table "t" "age >" = .ok [] := by
  have h := claim_C6_search_amended dbC6 "t" "age > 30"
    ⟨["age"], [("1", [("age", "40")])], []⟩ (by decide)
  have h2 := claim_C6_search_amended dbC6 "t" "age >"
    ⟨["age"], [("1", [("age", "40")])], []⟩ (by decide)
  exact ⟨((h.2 "age" ">" "30" (by decide)).2).trans (by decide), h2.1 (by decide)⟩

/-! ### Claim C5: append save and the saved-row-count watermark -/

/-- The database for the C5 counterexample: `t1` holds two rows that a
previous append save has already written (so the shared watermark is 2);
`t2` holds one row that has never been saved. -/
def dbC5 : Database :=
  { Database.new with
      tables := [("t1", ⟨["a"], [("x", [("a", "1")]), ("y", [("a", "2")])], []⟩),
                 ("t2", ⟨["a"], [("z", [("a", "3")])], []⟩)]
      saved_row_count := 2 }

/-- Claim C5 counterexample: the watermark is a single database-wide counter,
not per-table.  Appending `t2` (whose own rows were never saved, so a
per-table watermark would be 0 and exactly its one row should be written)
writes nothing — the shared watermark 2 skips past `t2`'s whole row list —
and the watermark is then set to 1, `t2`'s row count (it decreases instead of
advancing by K). -/
theorem claim_C5_counterexample :
    dbC5.save_table_for_insert "t2" true =
      .ok ({ dbC5 with saved_row_count := 1 }, ([] : List (List String)))
    ∧ ((([("z", [("a", "3")])] : List (String × Row)).drop 0).filter
        (fun p => p.1 ≠ "datatypes")).map (fun p => rowRecord ["a"] p.1 p.2) =
      [["z", "3"]]
    ∧ ([] : List (List String)) ≠ [["z", "3"]] := by decide

/-- Claim C5 (amended): the saved-row-count watermark is one database-wide
counter.  An append save on an existing snapshot file writes, with no header,
exactly the rows of `T` that remain after skipping `saved_row_count` entries
of its row sequence, excluding the reserved `datatypes` row, and then sets
the watermark to `T`'s total row count.  In particular, when the watermark
equals the number of previously saved rows of this same table (`T.rows = old
++ new` with `old.length` the watermark) and none of the new rows is the
`datatypes` row, the save writes exactly those `K = new.length` rows and the
watermark advances by `K`. -/
theorem claim_C5_append_save_amended (db : Database) (n : String) (T : Table)
    (hT : db.tables.lookup n = some T) :
    db.save_table_for_insert n true =
      .ok ({ db with saved_row_count := T.rows.length },
        ((T.rows.drop db.saved_row_count).filter (fun p => p.1 ≠ "datatypes")).map
          (fun p => rowRecord (sortStrings T.columns) p.1 p.2))
    ∧ (∀ old new : List (String × Row), T.rows = old ++ new →
        old.length = db.saved_row_count →
        (∀ p ∈ new, p.1 ≠ "datatypes") →
        ∃ db2 recs, db.save_table_for_insert n true = .ok (db2, recs)
          ∧ recs = new.map (fun p => rowRecord (sortStrings T.columns) p.1 p.2)
          ∧ recs.length = new.length
          ∧ db2.saved_row_count = db.saved_row_count + new.length) := by
  have hmain : db.save_table_for_insert n true =
      .ok ({ db with saved_row_count := T.rows.length },
        ((T.rows.drop db.saved_row_count).filter (fun p => p.1 ≠ "datatypes")).map
          (fun p => rowRecord (sortStrings T.columns) p.1 p.2)) := by
    unfold Database.save_table_for_insert
    simp only [hT]
  refine ⟨hmain, ?_⟩
  intro old new hsplit hlen hnd
  have hdrop : T.rows.drop db.saved_row_count = new := by
    rw [hsplit, ← hlen, List.drop_left]
  have hfilter : new.filter (fun p => p.1 ≠ "datatypes") = new :=
    List.filter_eq_self.mpr (fun p hp => by simpa using hnd p hp)
  refine ⟨_, _, hmain, ?_, ?_, ?_⟩
  · rw [hdrop, hfilter]
  · rw [hdrop, hfilter, List.length_map]
  · simp only [hsplit, List.length_append, hlen]

/-- The single-table database for the C5 witness: one previously saved row
(`watermark 1`) and one new row. -/
def dbC5w : Database :=
  { Database.new with
      tables := [("t", ⟨["a"], [("1", [("a", "x")]), ("2", [("a", "y")])], []⟩)]
      saved_row_count := 1 }

/-- Witness for the amended C5 at `dbC5w`: the append save writes exactly the
one unsaved row and advances the watermark from 1 to 2. -/
theorem claim_C5_witness :
    dbC5w.save_table_for_insert "t" true =
      .ok ({ dbC5w with saved_row_count := 2 }, [["2", "y"]]) := by
  have h := (claim_C5_append_save_amended dbC5w "t"
    ⟨["a"], [("1", [("a", "x")]), ("2", [("a", "y")])], []⟩ (by decide)).1
  exact h.trans (by decide)

/-! ### Claim C7: snapshot round trip -/

/-- A row restricted to a column list, with missing fields back-filled by
empty strings — the shape every row takes after a save/load round trip. -/
def backfill (cols : List String) (row : Row) : Row :=
  cols.map (fun c => (c, (row.lookup c).getD ""))

theorem lookup_of_mem_nodup {l : List (String × β)} {k : String} {v : β}
    (hmem : (k, v) ∈ l) (hnd : (l.map Prod.fst).Nodup) : l.lookup k = some v := by
  induction l with
  | nil => simp at hmem
  | cons p rest ih =>
      obtain ⟨k₀, v₀⟩ := p
      simp only [List.map_cons, List.nodup_cons] at hnd
      rcases List.mem_cons.mp hmem with hpe | hmem'
      · obtain ⟨hk, hv⟩ := Prod.mk.injEq .. ▸ hpe
        injection hpe with hk hv
        subst hk; subst hv
        simp [List.lookup]
      · have hkne : k ≠ k₀ := by
          intro he
          subst he
          exact hnd.1 (List.mem_map.mpr ⟨(k, v), hmem', rfl⟩)
        simp only [List.lookup, beq_eq_false_iff_ne.mpr hkne]
        exact ih hmem' hnd.2

theorem lookup_eq_none_iff {l : List (String × β)} {k : String} :
    l.lookup k = none ↔ k ∉ l.map Prod.fst := by
  induction l with
  | nil => simp [List.lookup]
  | cons p rest ih =>
      obtain ⟨k₀, v₀⟩ := p
      by_cases hk : k = k₀
      · subst hk; simp [List.lookup]
      · simp only [List.lookup, beq_eq_false_iff_ne.mpr hk, List.map_cons,
          List.mem_cons, ih]
        constructor
        · intro h hor
          rcases hor with he | hm
          · exact hk he
          · exact h hm
        · intro h hm
          exact h (Or.inr hm)

theorem foldl_alInsert_pairs {β : Type} (pairs acc : List (String × β))
    (hdisj : ∀ k ∈ pairs.map Prod.fst, k ∉ acc.map Prod.fst)
    (hnd : (pairs.map Prod.fst).Nodup) :
    pairs.foldl (fun rows p => alInsert p.1 p.2 rows) acc = acc ++ pairs := by
  induction pairs generalizing acc with
  | nil => simp
  | cons p rest ih =>
      obtain ⟨k, v⟩ := p
      simp only [List.map_cons, List.nodup_cons] at hnd
      simp only [List.foldl_cons]
      rw [alInsert_of_not_mem v (hdisj k (by simp))]
      rw [ih (acc ++ [(k, v)]) ?_ hnd.2]
      · simp
      · intro k' hk'
        simp only [List.map_append, List.mem_append, List.map_cons, List.map_nil,
          List.mem_singleton]
        push_neg
        refine ⟨hdisj k' (by simp [hk']), ?_⟩
        intro he
        rw [he] at hk'
        exact hnd.1 hk'

theorem foldl_add_column (cs : List String) (t0 : Table)
    (hnd : cs.Nodup) (hdisj : ∀ c ∈ cs, c ∉ t0.columns) :
    cs.foldl (fun t h => t.add_column h) t0 =
      ⟨t0.columns ++ cs, t0.rows, t0.row_datatypes⟩ := by
  induction cs generalizing t0 with
  | nil => simp
  | cons c rest ih =>
      simp only [List.nodup_cons] at hnd
      simp only [List.foldl_cons]
      have hadd : t0.add_column c = ⟨t0.columns ++ [c], t0.rows, t0.row_datatypes⟩ := by
        simp [Table.add_column, hdisj c (by simp)]
      rw [hadd, ih _ hnd.2 ?_]
      · simp
      · intro x hx
        simp only [List.mem_append, List.mem_singleton]
        push_neg
        refine ⟨hdisj x (by simp [hx]), ?_⟩
        intro he
        rw [he] at hx
        exact hnd.1 hx

theorem foldl_insert_rows (hdr : List String) (recs : List (List String)) (t0 : Table) :
    recs.foldl (fun t rec => t.insert_row (rec.headD "") (zipData hdr rec)) t0 =
      ⟨t0.columns,
       recs.foldl (fun rows rec => alInsert (rec.headD "") (zipData hdr rec) rows) t0.rows,
       t0.row_datatypes⟩ := by
  induction recs generalizing t0 with
  | nil => simp
  | cons rec rest ih =>
      simp only [List.foldl_cons]
      rw [ih]
      simp [Table.insert_row]

theorem zipData_rowRecord (cols : List String) (id : String) (row : Row)
    (hnd : cols.Nodup) :
    zipData ("row_id" :: cols) (rowRecord cols id row) = backfill cols row := by
  unfold zipData rowRecord backfill
  simp only [List.drop_succ_cons, List.drop_zero]
  have hzip : ∀ cs : List String, cs.zip (cs.map (fun c => (row.lookup c).getD "")) =
      cs.map (fun c => (c, (row.lookup c).getD "")) := by
    intro cs
    induction cs with
    | nil => rfl
    | cons c cst ih => simp [ih]
  rw [hzip]
  have := foldl_alInsert_pairs (cols.map (fun c => (c, (row.lookup c).getD ""))) []
    (by simp) (by rw [List.map_map]; simpa [Function.comp_def] using hnd)
  simpa using this

/-- The non-`datatypes` rows of a table, sorted by id as `save_table` emits
them. -/
def userSorted (T : Table) : List (String × Row) :=
  sortByB (fun p q => strLe p.1 q.1) (T.rows.filter (fun p => p.1 ≠ "datatypes"))

/-- The reserved `datatypes` row as a (possibly empty) row list. -/
def dtPairs (T : Table) : List (String × Row) :=
  match T.rows.lookup "datatypes" with
  | some dt => [("datatypes", dt)]
  | none => []

/-- The row sequence a full save writes: `datatypes` first (when present),
then the user rows in sorted id order. -/
def savedRows (T : Table) : List (String × Row) := dtPairs T ++ userSorted T

theorem save_table_eq (db : Database) (n : String) (T : Table)
    (hT : db.tables.lookup n = some T) :
    db.save_table n = .ok (("row_id" :: sortStrings T.columns) ::
      (savedRows T).map (fun p => rowRecord (sortStrings T.columns) p.1 p.2)) := by
  unfold Database.save_table
  simp only [hT]
  cases hdt : T.rows.lookup "datatypes" <;>
    simp [savedRows, dtPairs, userSorted, hdt, sortStrings]

theorem rowRecord_headD (cols : List String) (id : String) (row : Row) :
    (rowRecord cols id row).headD "" = id := rfl

theorem userSorted_perm (T : Table) :
    (userSorted T).Perm (T.rows.filter (fun p => p.1 ≠ "datatypes")) :=
  sortByB_perm _ _

theorem userSorted_keys_nodup (T : Table) (hnd : (T.rows.map Prod.fst).Nodup) :
    ((userSorted T).map Prod.fst).Nodup := by
  have hsub : ((T.rows.filter (fun p => p.1 ≠ "datatypes")).map Prod.fst).Nodup :=
    ((List.filter_sublist T.rows).map Prod.fst).nodup hnd
  exact (((userSorted_perm T).map Prod.fst).nodup_iff).mpr hsub

theorem userSorted_keys_ne (T : Table) :
    ∀ k ∈ (userSorted T).map Prod.fst, k ≠ "datatypes" := by
  intro k hk
  rcases List.mem_map.mp hk with ⟨p, hp, hpk⟩
  have hp' := (userSorted_perm T).mem_iff.mp hp
  have := (List.mem_filter.mp hp').2
  rw [← hpk]
  simpa using this

theorem savedRows_keys_nodup (T : Table) (hnd : (T.rows.map Prod.fst).Nodup) :
    ((savedRows T).map Prod.fst).Nodup := by
  unfold savedRows dtPairs
  cases hdt : T.rows.lookup "datatypes" with
  | none => simpa using userSorted_keys_nodup T hnd
  | some dt =>
      simp only [List.map_append, List.map_cons, List.map_nil,
        List.singleton_append, List.nodup_cons]
      exact ⟨fun hmem => userSorted_keys_ne T _ hmem rfl,
        userSorted_keys_nodup T hnd⟩

theorem savedRows_mem (T : Table) (id : String) (row : Row)
    (h : T.rows.lookup id = some row) : (id, row) ∈ savedRows T := by
  unfold savedRows dtPairs
  by_cases hd : id = "datatypes"
  · subst hd
    rw [h]
    simp
  · apply List.mem_append_right
    apply (userSorted_perm T).mem_iff.mpr
    apply List.mem_filter.mpr
    exact ⟨lookup_mem h, by simpa using hd⟩

theorem savedRows_keys_sub (T : Table) :
    ∀ k ∈ (savedRows T).map Prod.fst, k ∈ T.rows.map Prod.fst := by
  intro k hk
  unfold savedRows dtPairs at hk
  rw [List.map_append, List.mem_append] at hk
  rcases hk with hk | hk
  · cases hdt : T.rows.lookup "datatypes" with
    | none => rw [hdt] at hk; simp at hk
    | some dt =>
        rw [hdt] at hk
        simp only [List.map_cons, List.map_nil, List.mem_singleton] at hk
        subst hk
        rcases List.mem_map.mp (List.map_subset Prod.fst
          (fun x hx => hx) (List.mem_map.mpr ⟨("datatypes", dt), lookup_mem hdt, rfl⟩)) with _
        exact List.mem_map.mpr ⟨("datatypes", dt), lookup_mem hdt, rfl⟩
  · rcases List.mem_map.mp hk with ⟨p, hp, hpk⟩
    have hp' := (userSorted_perm T).mem_iff.mp hp
    exact List.mem_map.mpr ⟨p, (List.mem_filter.mp hp').1, hpk⟩

theorem load_table_eq (db0 : Database) (n2 : String) (cols : List String)
    (pairs : List (String × Row)) (hcols : cols.Nodup)
    (hnd : (pairs.map Prod.fst).Nodup) :
    (db0.load_table_from_file n2 (("row_id" :: cols) ::
        pairs.map (fun p => rowRecord cols p.1 p.2))).tables.lookup n2 =
      some ⟨cols, pairs.map (fun p => (p.1, backfill cols p.2)), []⟩ := by
  have htable0 : cols.foldl (fun t h => t.add_column h) Table.new =
      ⟨cols, [], []⟩ := by
    rw [foldl_add_column cols Table.new hcols (by intro c _; simp [Table.new])]
    simp [Table.new]
  have hrows : (pairs.map (fun p => rowRecord cols p.1 p.2)).foldl
      (fun rows rec => alInsert (rec.headD "") (zipData ("row_id" :: cols) rec) rows)
      ([] : List (String × Row)) = pairs.map (fun p => (p.1, backfill cols p.2)) := by
    rw [List.foldl_map]
    rw [List.foldl_ext _ (fun acc p => alInsert p.1 (backfill cols p.2) acc) _
      (fun acc p hp => by rw [rowRecord_headD, zipData_rowRecord _ _ _ hcols])]
    have hmapnd : ((pairs.map (fun p => (p.1, backfill cols p.2))).map Prod.fst).Nodup := by
      rw [List.map_map]
      simpa [Function.comp_def] using hnd
    have h2 := foldl_alInsert_pairs (pairs.map (fun p => (p.1, backfill cols p.2))) []
      (by simp) hmapnd
    rw [List.foldl_map] at h2
    simpa using h2
  unfold Database.load_table_from_file
  simp only [List.headD_cons, List.drop_succ_cons, List.drop_zero, htable0]
  rw [foldl_insert_rows]
  simp only [hrows]
  exact alInsert_lookup_self _ _ _

/-- Claim C7 (amended): a full `save_table` then `load_table_from_file`
reproduces the table up to column restriction and empty-string back-fill.
Layout: the header is `row_id` followed by the table's columns sorted
lexicographically (a permutation of the column set); the `datatypes` record,
when present, appears immediately after the header; the user records follow
with their ids sorted lexicographically, a permutation of the table's
non-`datatypes` ids; missing fields serialize as empty (`rowRecord`).  Round
trip: the loaded table's columns are exactly the sorted originals, every
original row id maps to its original row restricted to the columns with
missing fields as `""` (`backfill`), and no other row id appears.  (Exact row
equality fails: a row missing a declared column gains an empty-string entry,
and keys outside the column list are dropped — see the counterexample.) -/
theorem claim_C7_roundtrip (db db0 : Database) (n n2 : String) (T : Table)
    (recs : List (List String))
    (hT : db.tables.lookup n = some T)
    (hnd : (T.rows.map Prod.fst).Nodup)
    (hcols : T.columns.Nodup)
    (hsave : db.save_table n = .ok recs) :
    recs.headD [] = "row_id" :: sortStrings T.columns
    ∧ (sortStrings T.columns).Pairwise (fun a b => strLe a b = true)
    ∧ (sortStrings T.columns).Perm T.columns
    ∧ (∀ dtrow, T.rows.lookup "datatypes" = some dtrow →
        recs.getD 1 [] = rowRecord (sortStrings T.columns) "datatypes" dtrow)
    ∧ ((recs.drop (1 + (if (T.rows.lookup "datatypes").isSome then 1 else 0))).map
        (fun r => r.headD "")).Pairwise (fun a b => strLe a b = true)
    ∧ ((recs.drop (1 + (if (T.rows.lookup "datatypes").isSome then 1 else 0))).map
        (fun r => r.headD "")).Perm
        ((T.rows.filter (fun p => p.1 ≠ "datatypes")).map Prod.fst)
    ∧ (∃ T2, (db0.load_table_from_file n2 recs).tables.lookup n2 = some T2
        ∧ T2.columns = sortStrings T.columns
        ∧ (∀ id row, T.rows.lookup id = some row →
            T2.rows.lookup id = some (backfill (sortStrings T.columns) row))
        ∧ (∀ id, T.rows.lookup id = none → T2.rows.lookup id = none)) := by
  have hrecs : recs = ("row_id" :: sortStrings T.columns) ::
      (savedRows T).map (fun p => rowRecord (sortStrings T.columns) p.1 p.2) := by
    have h0 := save_table_eq db n T hT
    rw [hsave] at h0
    exact Except.ok.inj h0
  have hscols : (sortStrings T.columns).Nodup :=
    (sortByB_perm strLe T.columns).nodup_iff.mpr hcols
  have hsknd : ((savedRows T).map Prod.fst).Nodup := savedRows_keys_nodup T hnd
  have lepTot : ∀ p q : String × Row,
      (fun p q : String × Row => strLe p.1 q.1) p q = false →
      (fun p q : String × Row => strLe p.1 q.1) q p = true := by
    intro p q h
    exact strLe_of_not _ _ h
  have lepTrans : ∀ p q r : String × Row,
      (fun p q : String × Row => strLe p.1 q.1) p q = true →
      (fun p q : String × Row => strLe p.1 q.1) q r = true →
      (fun p q : String × Row => strLe p.1 q.1) p r = true := by
    intro p q r h1 h2
    exact strLe_trans h1 h2
  have hUserPairwise : ((userSorted T).map (fun p =>
      (rowRecord (sortStrings T.columns) p.1 p.2).headD "")).Pairwise
      (fun a b => strLe a b = true) := by
    rw [List.pairwise_map]
    simp only [rowRecord_headD]
    exact pairwise_sortByB _ lepTot lepTrans _
  have hUserMapEq : (userSorted T).map (fun p =>
      (rowRecord (sortStrings T.columns) p.1 p.2).headD "") =
      (userSorted T).map Prod.fst :=
    List.map_congr_left (fun p _ => rowRecord_headD _ _ _)
  refine ⟨by rw [hrecs]; rfl, ?_, sortByB_perm strLe T.columns, ?_, ?_, ?_, ?_⟩
  · exact pairwise_sortByB strLe strLe_of_not (fun a b c h1 h2 => strLe_trans h1 h2)
      T.columns
  · intro dtrow hdt
    rw [hrecs]
    have hsr : savedRows T = ("datatypes", dtrow) :: userSorted T := by
      simp [savedRows, dtPairs, hdt]
    rw [hsr]
    rfl
  · rw [hrecs]
    cases hdt : T.rows.lookup "datatypes" with
    | some dt =>
        have hsr : savedRows T = ("datatypes", dt) :: userSorted T := by
          simp [savedRows, dtPairs, hdt]
        rw [hsr]
        show (((userSorted T).map
          (fun p => rowRecord (sortStrings T.columns) p.1 p.2)).map
          (fun r => r.headD "")).Pairwise (fun a b => strLe a b = true)
        rw [List.map_map]
        simpa [Function.comp_def] using hUserPairwise
    | none =>
        have hsr : savedRows T = userSorted T := by
          simp [savedRows, dtPairs, hdt]
        rw [hsr]
        show (((userSorted T).map
          (fun p => rowRecord (sortStrings T.columns) p.1 p.2)).map
          (fun r => r.headD "")).Pairwise (fun a b => strLe a b = true)
        rw [List.map_map]
        simpa [Function.comp_def] using hUserPairwise
  · rw [hrecs]
    cases hdt : T.rows.lookup "datatypes" with
    | some dt =>
        have hsr : savedRows T = ("datatypes", dt) :: userSorted T := by
          simp [savedRows, dtPairs, hdt]
        rw [hsr]
        show (((userSorted T).map
          (fun p => rowRecord (sortStrings T.columns) p.1 p.2)).map
          (fun r => r.headD "")).Perm
          ((T.rows.filter (fun p => p.1 ≠ "datatypes")).map Prod.fst)
        rw [List.map_map]
        refine List.Perm.trans ?_ ((userSorted_perm T).map Prod.fst)
        apply List.Perm.of_eq
        simpa [Function.comp_def] using hUserMapEq
    | none =>
        have hsr : savedRows T = userSorted T := by
          simp [savedRows, dtPairs, hdt]
        rw [hsr]
        show (((userSorted T).map
          (fun p => rowRecord (sortStrings T.columns) p.1 p.2)).map
          (fun r => r.headD "")).Perm
          ((T.rows.filter (fun p => p.1 ≠ "datatypes")).map Prod.fst)
        rw [List.map_map]
        refine List.Perm.trans ?_ ((userSorted_perm T).map Prod.fst)
        apply List.Perm.of_eq
        simpa [Function.comp_def] using hUserMapEq
  · rw [hrecs]
    refine ⟨⟨sortStrings T.columns,
      (savedRows T).map (fun p => (p.1, backfill (sortStrings T.columns) p.2)), []⟩,
      load_table_eq db0 n2 _ _ hscols hsknd, rfl, ?_, ?_⟩
    · intro id row hid
      apply lookup_of_mem_nodup
      · exact List.mem_map.mpr ⟨(id, row), savedRows_mem T id row hid, rfl⟩
      · rw [List.map_map]
        simpa [Function.comp_def] using hsknd
    · intro id hid
      apply lookup_eq_none_iff.mpr
      rw [List.map_map]
      simp only [Function.comp_def]
      intro hmem
      rcases List.mem_map.mp hmem with ⟨p, hp, hpk⟩
      have hmem2 : p.1 ∈ (savedRows T).map Prod.fst := List.mem_map.mpr ⟨p, hp, rfl⟩
      have h2 := savedRows_keys_sub T p.1 hmem2
      rw [hpk] at h2
      exact (lookup_eq_none_iff.mp hid) h2

/-- The database for the C7 counterexample: table `t` with declared columns
`a`, `b` and one row that misses column `b` but carries the undeclared key
`z`. -/
def dbC7 : Database :=
  { Database.new with
      tables := [("t", ⟨["a", "b"], [("r1", [("a", "x"), ("z", "q")])], []⟩)] }

/-- Claim C7 counterexample: the round trip does not reproduce the row map.
Saving serializes only the declared columns (key `z` is dropped, missing
field `b` becomes empty) and loading installs every header field, so the
loaded row is `{a: x, b: ""}`, not the original `{a: x, z: q}` — they differ
as maps (`z` is gone, `b` appeared). -/
theorem claim_C7_counterexample :
    dbC7.save_table "t" = .ok [["row_id", "a", "b"], ["r1", "x", ""]]
    ∧ ((Database.new.load_table_from_file "t2"
        [["row_id", "a", "b"], ["r1", "x", ""]]).tables.lookup "t2").map
        (fun t => t.rows.lookup "r1") = some (some [("a", "x"), ("b", "")])
    ∧ (([("a", "x"), ("b", "")] : Row).lookup "z") = none
    ∧ (([("a", "x"), ("z", "q")] : Row).lookup "z") = some "q"
    ∧ ([("a", "x"), ("b", "")] : Row) ≠ [("a", "x"), ("z", "q")] := by decide

/-- The database for the C7 witness: one table whose single row assigns a
value to every declared column. -/
def dbC7w : Database :=
  { Database.new with tables := [("t", ⟨["a"], [("r1", [("a", "x")])], []⟩)] }

/-- Witness for the amended C7 at `dbC7w`. -/
theorem claim_C7_witness :
    ([["row_id", "a"], ["r1", "x"]].headD [] = "row_id" :: sortStrings ["a"])
    ∧ ∃ T2, (Database.new.load_table_from_file "t2"
        [["row_id", "a"], ["r1", "x"]]).tables.lookup "t2" = some T2
        ∧ T2.columns = sortStrings ["a"]
        ∧ T2.rows.lookup "r1" = some (backfill (sortStrings ["a"]) [("a", "x")]) := by
  have h := claim_C7_roundtrip dbC7w Database.new "t" "t2"
    ⟨["a"], [("r1", [("a", "x")])], []⟩ [["row_id", "a"], ["r1", "x"]]
    (by decide) (by decide) (by decide) (by decide)
  obtain ⟨h1, _, _, _, _, _, T2, hT2, hcols2, hpres, _⟩ := h
  exact ⟨h1, T2, hT2, hcols2, hpres "r1" [("a", "x")] (by decide)⟩

end RustDB
